import Mathlib

/-!
Shallow embedding of the shared interval scheduler of `src/main/useInterval.ts`
(`react-hooks`).  The TypeScript module keeps a process-wide `Map` from a delay
(milliseconds) to a scheduler closure; each scheduler owns a live `callbacks`
array and one repeating `setTimeout` chain, dispatching every tick to all
registered callbacks in array order with `for (const cb of callbacks)`.

The embedding makes the mutable closure state explicit:

* `SysState.registry`  — the `schedulers` map (delay → group id);
* `SysState.groups`    — every scheduler closure ever created (its `callbacks`
  array and its `timeout` variable), kept even after eviction because closures
  outlive their registry entry;
* `SysState.closures`  — the zero-argument callback closures (`() => cb(...args)`),
  each recording the underlying callback id and a deep-embedded behaviour used
  to model reentrant calls made from inside a tick;
* `SysState.pending`   — the set of armed, not-yet-fired timer handles
  (`setTimeout` allocates one, `clearTimeout` removes it, firing consumes it);
* `SysState.handles`   — the per-hook manager state of `createIntervalManager`
  (lifecycle phase of `doSchedule`/`doCancel` and the captured `abort` closure);
* `SysState.log`       — observable events: callback invocations and errors
  deferred via `setTimeout(() => { throw e })`.

JS `for...of` over a live array is index-based against the current length, so
the tick loop re-reads the group's array at every step; it is written on fuel
because a callback that keeps appending callbacks makes the real loop diverge.
-/

/-- Reentrant actions a callback body may perform during a tick.  `abort g w`
invokes the abort closure returned by scheduler `g` for closure `w`;
`add d w` calls `getOrCreateScheduler(d)(w)`; `fail` throws. -/
inductive Prim where
  | abort (gid w : Nat)
  | add (delay w : Nat)
  | fail
deriving DecidableEq, Repr

/-- A zero-argument closure stored in a group's `callbacks` array: the id `u`
of the underlying user callback it wraps, and its deep-embedded behaviour. -/
structure Closure where
  u : Nat
  beh : List Prim
deriving DecidableEq, Repr

/-- The mutable state captured by one `getOrCreateScheduler` activation:
the delay `ms`, the live `callbacks` array (closure ids in insertion order)
and the `timeout` variable (last timer handle written, if any). -/
structure TimerGroup where
  delay : Nat
  callbacks : List Nat
  timeout : Option Nat
deriving DecidableEq, Repr

/-- Lifecycle phase of a `createIntervalManager` instance: before the insertion
effect ran (`doSchedule`/`doCancel` are `noop`), while mounted, and after the
effect cleanup reset them to `noop`. -/
inductive Phase where
  | idle
  | active
  | dead
deriving DecidableEq, Repr

/-- One hook handle: its phase and the `abort` variable of the effect closure,
recorded as the (group id, closure id) pair the abort closure captures. -/
structure Handle where
  phase : Phase
  tgt : Option (Nat × Nat)
deriving DecidableEq, Repr

/-- Observable events: `invoke w u` is the dispatch loop calling closure `w`
(wrapping user callback `u`); `errDeferred w` is the `catch` branch scheduling
`setTimeout(() => { throw e })` after closure `w` threw. -/
inductive Event where
  | invoke (w u : Nat)
  | errDeferred (w : Nat)
deriving DecidableEq, Repr

/-- The whole mutable state of the module plus the event log. -/
structure SysState where
  registry : List (Nat × Nat)
  groups : List (Nat × TimerGroup)
  closures : List (Nat × Closure)
  pending : List Nat
  handles : List (Nat × Handle)
  nextId : Nat
  log : List Event
deriving DecidableEq, Repr

/-- Association-list lookup with decidable `Nat` keys. -/
def lookK {α : Type} (k : Nat) : List (Nat × α) → Option α
  | [] => none
  | (k1, v) :: t => if k1 = k then some v else lookK k t

/-- Association-list update, replacing the binding of `k` (JS `Map.set`). -/
def setK {α : Type} (k : Nat) (v : α) : List (Nat × α) → List (Nat × α)
  | [] => [(k, v)]
  | (k1, v1) :: t => if k1 = k then (k, v) :: t else (k1, v1) :: setK k v t

/-- Association-list deletion (JS `Map.delete`). -/
def delK {α : Type} (k : Nat) : List (Nat × α) → List (Nat × α)
  | [] => []
  | (k1, v1) :: t => if k1 = k then t else (k1, v1) :: delK k t

/-- The empty initial state of the module. -/
def initState : SysState :=
  { registry := [], groups := [], closures := [], pending := [], handles := [],
    nextId := 0, log := [] }

/-- JS `ToInt32` on an integral number: wrap into `[-2^31, 2^31)`. -/
def jsToInt32 (m : Int) : Int :=
  (m + 2 ^ 31) % 2 ^ 32 - 2 ^ 31

/-- A `delayMs` argument: an integral number, or a non-numeric value whose
`| 0` coercion yields `0` (e.g. `NaN`). -/
inductive DelayArg where
  | num (m : Int)
  | nonNumeric
deriving DecidableEq, Repr

/-- The value of `ms | 0` for a `delayMs` argument. -/
def delayOr0 : DelayArg → Int
  | .num m => jsToInt32 m
  | .nonNumeric => 0

/-- `Math.max(ms | 0, 0)` — the normalized delay used as the registry key. -/
def normalizeDelay (a : DelayArg) : Nat :=
  (max (delayOr0 a) 0).toNat

/-- `getOrCreateScheduler(ms)`: return the registered scheduler for `ms` if
present; otherwise create a fresh group (empty `callbacks`, no timer), store
it under `ms`, and return it. -/
def getOrCreateScheduler (ms : Nat) (s : SysState) : Nat × SysState :=
  match lookK ms s.registry with
  | some gid => (gid, s)
  | none =>
      let gid := s.nextId
      (gid, { s with
        registry := setK ms gid s.registry,
        groups := setK gid ⟨ms, [], none⟩ s.groups,
        nextId := s.nextId + 1 })

/-- The body of `scheduler = cb => { ... }`: if `cb` is not present, push it;
if the push made the array length 1, arm the timer
(`timeout = setTimeout(invokeCallbacks, ms)`). -/
def groupAdd (gid w : Nat) (s : SysState) : SysState :=
  match lookK gid s.groups with
  | none => s
  | some g =>
      if w ∈ g.callbacks then s
      else
        let cbs := g.callbacks ++ [w]
        if cbs.length = 1 then
          let tid := s.nextId
          { s with
            groups := setK gid ⟨g.delay, cbs, some tid⟩ s.groups,
            pending := tid :: s.pending,
            nextId := s.nextId + 1 }
        else
          { s with groups := setK gid ⟨g.delay, cbs, g.timeout⟩ s.groups }

/-- The abort closure returned by `scheduler(cb)`: splice `cb` out of
`callbacks` if present; if that emptied the array, delete the registry entry
for this delay and `clearTimeout(timeout)`. -/
def groupAbort (gid w : Nat) (s : SysState) : SysState :=
  match lookK gid s.groups with
  | none => s
  | some g =>
      if w ∈ g.callbacks then
        let cbs := g.callbacks.erase w
        let s1 := { s with groups := setK gid ⟨g.delay, cbs, g.timeout⟩ s.groups }
        if cbs.length = 0 then
          { s1 with
            registry := delK g.delay s1.registry,
            pending := match g.timeout with
              | none => s1.pending
              | some tid => s1.pending.erase tid }
        else s1
      else s

/-- `getOrCreateScheduler(d)(w)` as performed by a reentrant `add`. -/
def schedAdd (d w : Nat) (s : SysState) : SysState :=
  let p := getOrCreateScheduler d s
  groupAdd p.1 w p.2

/-- Run a callback body: prims execute in order until a `fail` throws
(the exception escapes the callback, so later prims do not run).
Returns the state and whether the callback threw. -/
def runPrims : List Prim → SysState → SysState × Bool
  | [], s => (s, false)
  | p :: ps, s =>
      match p with
      | .fail => (s, true)
      | .abort gid w => runPrims ps (groupAbort gid w s)
      | .add d w => runPrims ps (schedAdd d w s)

/-- One iteration body of the dispatch loop: `try { cb() } catch (e) {
setTimeout(() => { throw e }) }`.  Logs the invocation, runs the body, and
logs a deferred error if it threw. -/
def invokeOne (w : Nat) (s : SysState) : SysState :=
  match lookK w s.closures with
  | none => s
  | some c =>
      let s1 := { s with log := s.log ++ [Event.invoke w c.u] }
      let r := runPrims c.beh s1
      if r.2 then { r.1 with log := r.1.log ++ [Event.errDeferred w] } else r.1

/-- `timeout = setTimeout(invokeCallbacks, ms)` at the end of the dispatch
loop: allocate a fresh timer handle, record it as pending, and overwrite the
group's `timeout` variable.  Runs unconditionally after the loop. -/
def rearm (gid : Nat) (s : SysState) : SysState :=
  match lookK gid s.groups with
  | none => s
  | some g =>
      let tid := s.nextId
      { s with
        groups := setK gid ⟨g.delay, g.callbacks, some tid⟩ s.groups,
        pending := tid :: s.pending,
        nextId := s.nextId + 1 }

/-- The `for (const cb of callbacks)` loop of `invokeCallbacks`, written on
fuel: JS array iteration is index-based against the current length of the live
array, so the group's array is re-read at every step.  When the index reaches
the current length the loop ends and the timer is re-armed. -/
def tickLoop (gid : Nat) : Nat → Nat → SysState → SysState
  | 0, _, s => s
  | fuel + 1, i, s =>
      match lookK gid s.groups with
      | none => s
      | some g =>
          if h : i < g.callbacks.length then
            tickLoop gid fuel (i + 1) (invokeOne (g.callbacks.get ⟨i, h⟩) s)
          else
            rearm gid s

/-- The group's pending timer fires: the handle stored in the group's
`timeout` variable is consumed from the pending set and `invokeCallbacks`
runs (dispatch loop, then unconditional re-arm). -/
def fireGroupTimer (gid fuel : Nat) (s : SysState) : SysState :=
  match lookK gid s.groups with
  | none => s
  | some g =>
      match g.timeout with
      | none => s
      | some tid =>
          if tid ∈ s.pending then
            tickLoop gid fuel 0 { s with pending := s.pending.erase tid }
          else s

/-- `doCancel` as reached through the manager's `cancel()`: a no-op before the
effect ran and after its cleanup; while active, if the `abort` variable is
set, call the abort closure and clear the variable. -/
def handleCancel (hid : Nat) (s : SysState) : SysState :=
  match lookK hid s.handles with
  | none => s
  | some h =>
      match h.phase with
      | .active =>
          match h.tgt with
          | none => s
          | some t =>
              let s1 := groupAbort t.1 t.2 s
              { s1 with handles := setK hid ⟨.active, none⟩ s1.handles }
      | _ => s

/-- `doSchedule` as reached through the manager's `schedule(cb, ms, ...args)`:
a no-op unless mounted; otherwise `doCancel()`, normalize the delay, fetch or
create the scheduler, wrap `cb` with its args in a fresh zero-argument closure,
add it to the group, and record the returned abort closure. -/
def handleSchedule (hid u : Nat) (beh : List Prim) (a : DelayArg) (s : SysState) :
    SysState :=
  match lookK hid s.handles with
  | none => s
  | some h =>
      match h.phase with
      | .active =>
          let s1 := handleCancel hid s
          let p := getOrCreateScheduler (normalizeDelay a) s1
          let w := p.2.nextId
          let s2 := { p.2 with
            closures := setK w ⟨u, beh⟩ p.2.closures,
            nextId := p.2.nextId + 1 }
          let s3 := groupAdd p.1 w s2
          { s3 with handles := setK hid ⟨.active, some (p.1, w)⟩ s3.handles }
      | _ => s

/-- The insertion effect running at mount: installs the real `doSchedule` and
`doCancel` with a fresh, unset `abort` variable. -/
def handleMount (hid : Nat) (s : SysState) : SysState :=
  match lookK hid s.handles with
  | none => s
  | some h =>
      match h.phase with
      | .idle => { s with handles := setK hid ⟨.active, h.tgt⟩ s.handles }
      | _ => s

/-- The effect cleanup at unmount: `doCancel()` then reset both functions to
`noop`, making the handle permanently inert. -/
def handleUnmount (hid : Nat) (s : SysState) : SysState :=
  match lookK hid s.handles with
  | none => s
  | some h =>
      match h.phase with
      | .active =>
          let s1 := handleCancel hid s
          { s1 with handles := setK hid ⟨.dead, none⟩ s1.handles }
      | _ => s

/-- The closure ids invoked so far, in log order. -/
def invokedMembers (l : List Event) : List Nat :=
  l.filterMap fun e => match e with
    | .invoke w _ => some w
    | _ => none

/-- The underlying user-callback ids invoked so far, in log order. -/
def invokedUnderlying (l : List Event) : List Nat :=
  l.filterMap fun e => match e with
    | .invoke _ u => some u
    | _ => none

/-- The closure ids whose tick invocation threw and was deferred. -/
def erroredMembers (l : List Event) : List Nat :=
  l.filterMap fun e => match e with
    | .errDeferred w => some w
    | _ => none

/-- Closure `w` exists and has an empty body (invoking it changes nothing). -/
def inertB (s : SysState) (w : Nat) : Bool :=
  match lookK w s.closures with
  | some c => c.beh.isEmpty
  | none => false

/-- Closure `w` exists and either does nothing or immediately throws. -/
def inertOrFailB (s : SysState) (w : Nat) : Bool :=
  match lookK w s.closures with
  | some c => c.beh.isEmpty || c.beh == [Prim.fail]
  | none => false

/-- Closure `w` exists and immediately throws. -/
def failsB (s : SysState) (w : Nat) : Bool :=
  match lookK w s.closures with
  | some c => c.beh == [Prim.fail]
  | none => false

/-- The events one tick produces for the members `l`, given the (unchanged)
closure table of `s`: an invocation per member, plus a deferred error when the
member throws. -/
def tickEvents (s : SysState) (l : List Nat) : List Event :=
  l.flatMap fun w => match lookK w s.closures with
    | some c =>
        Event.invoke w c.u :: (if c.beh = [Prim.fail] then [Event.errDeferred w] else [])
    | none => []

/-- A group at delay 5 whose only callback (closure 1, wrapping user callback
100) cancels its own registration from inside the tick: the input of the C3
divergence. -/
def sC3 : SysState :=
  { registry := [(5, 0)], groups := [(0, ⟨5, [1], some 2⟩)],
    closures := [(1, ⟨100, [Prim.abort 0 1]⟩)],
    pending := [2], handles := [], nextId := 3, log := [] }

/-- A group at delay 5 holding closures 1 and 2; closure 1 cancels itself
during the tick while closure 2 stays registered the whole tick: the input of
the C4 divergence. -/
def sC4 : SysState :=
  { registry := [(5, 0)], groups := [(0, ⟨5, [1, 2], some 3⟩)],
    closures := [(1, ⟨100, [Prim.abort 0 1]⟩), (2, ⟨200, []⟩)],
    pending := [3], handles := [], nextId := 4, log := [] }

/-- A group at delay 5 whose only callback (closure 1) schedules closure 2 at
the same delay from inside the tick: the C5 counterexample input. -/
def sC5 : SysState :=
  { registry := [(5, 0)], groups := [(0, ⟨5, [1], some 3⟩)],
    closures := [(1, ⟨100, [Prim.add 5 2]⟩), (2, ⟨200, []⟩)],
    pending := [3], handles := [], nextId := 4, log := [] }

/-- Both handles of C10, scheduling the same user callback: first `h2`
schedules, then `h1`. -/
def twoSched (h1 h2 u : Nat) (beh : List Prim) (a : DelayArg) (s : SysState) :
    SysState :=
  handleSchedule h1 u beh a (handleSchedule h2 u beh a s)

/-- A group at delay 5 with two inert members, used to instantiate the
order-preservation theorem. -/
def sTwoInert : SysState :=
  { registry := [(5, 0)], groups := [(0, ⟨5, [1, 2], some 3⟩)],
    closures := [(1, ⟨100, []⟩), (2, ⟨200, []⟩)],
    pending := [3], handles := [], nextId := 4, log := [] }

/-- A group at delay 5 whose first member throws and whose second is inert,
used to instantiate the error-isolation theorem. -/
def sFailMix : SysState :=
  { registry := [(5, 0)], groups := [(0, ⟨5, [1, 2], some 3⟩)],
    closures := [(1, ⟨100, [Prim.fail]⟩), (2, ⟨200, []⟩)],
    pending := [3], handles := [], nextId := 4, log := [] }

/-- Two manager handles, one not yet mounted and one mounted with nothing
scheduled, used to instantiate the lifecycle theorems. -/
def sHandles : SysState :=
  { registry := [], groups := [], closures := [], pending := [],
    handles := [(0, ⟨.idle, none⟩), (1, ⟨.active, none⟩)],
    nextId := 2, log := [] }

/-- Two mounted handles with nothing scheduled, used to instantiate the
fresh-wrapper theorem. -/
def sTwoHandles : SysState :=
  { registry := [], groups := [], closures := [], pending := [],
    handles := [(0, ⟨.active, none⟩), (1, ⟨.active, none⟩)],
    nextId := 2, log := [] }

/-- `ps` performs no removal from group `gid`: it contains no `abort gid _`
prim (aborts on other groups, adds, and throws are all allowed). -/
def noAbortOn (gid : Nat) : List Prim → Bool
  | [] => true
  | p :: t =>
      (match p with
        | .abort g _ => g != gid
        | _ => true) && noAbortOn gid t

/-- Every closure id that `ps` may add to a group has an entry in the closure
table `cl` (as every real `scheduler(cb)` argument is a live closure). -/
def addsPresentL (cl : List (Nat × Closure)) : List Prim → Bool
  | [] => true
  | p :: t =>
      (match p with
        | .add _ w => (lookK w cl).isSome
        | _ => true) && addsPresentL cl t

/-- A group at delay 5 with members [1, 2, 3]: closure 1 adds closure 4
mid-tick, then closure 2 removes itself and closure 3 — the removals shift
the freshly added closure 4 behind the iteration index, so it is *not*
invoked in the tick in which it was added. -/
def sC5b : SysState :=
  { registry := [(5, 0)], groups := [(0, ⟨5, [1, 2, 3], some 9⟩)],
    closures := [(1, ⟨100, [Prim.add 5 4]⟩), (2, ⟨200, [Prim.abort 0 2, Prim.abort 0 3]⟩),
                 (3, ⟨300, []⟩), (4, ⟨400, []⟩)],
    pending := [9], handles := [], nextId := 10, log := [] }

theorem lookK_setK_self {α : Type} (k : Nat) (v : α) (l : List (Nat × α)) :
    lookK k (setK k v l) = some v := by
  induction l with
  | nil => simp [setK, lookK]
  | cons p t ih =>
      obtain ⟨k1, v1⟩ := p
      by_cases hk : k1 = k <;> simp [setK, lookK, hk, ih]

theorem lookK_setK_ne {α : Type} (k k2 : Nat) (v : α) (l : List (Nat × α))
    (h : k2 ≠ k) : lookK k2 (setK k v l) = lookK k2 l := by
  induction l with
  | nil => simp [setK, lookK, Ne.symm h]
  | cons p t ih =>
      obtain ⟨k1, v1⟩ := p
      by_cases hk : k1 = k
      · subst hk
        simp [setK, lookK, Ne.symm h]
      · simp [setK, lookK, hk, ih]

theorem lookK_getOrCreate (ms : Nat) (s : SysState) :
    lookK ms (getOrCreateScheduler ms s).2.registry =
      some (getOrCreateScheduler ms s).1 := by
  cases h : lookK ms s.registry with
  | some gid => simp [getOrCreateScheduler, h]
  | none => simp [getOrCreateScheduler, h, lookK_setK_self]

theorem groupAdd_registry (gid w : Nat) (s : SysState) :
    (groupAdd gid w s).registry = s.registry := by
  unfold groupAdd
  cases h : lookK gid s.groups with
  | none => rfl
  | some g =>
      dsimp only
      split
      · rfl
      · split <;> rfl

/-- C1: `getOrCreateScheduler(d)` returns the registered scheduler for `d`
when one is present (leaving the state untouched); otherwise it creates a
fresh, empty group, stores it under `d`, and returns it; and calling it again
with the same `d` yields the same group instance. -/
theorem getOrCreateScheduler_shares_one_group (ms : Nat) (s : SysState) :
    (∀ gid, lookK ms s.registry = some gid → getOrCreateScheduler ms s = (gid, s)) ∧
    (lookK ms s.registry = none →
      lookK ms (getOrCreateScheduler ms s).2.registry =
        some (getOrCreateScheduler ms s).1 ∧
      lookK (getOrCreateScheduler ms s).1 (getOrCreateScheduler ms s).2.groups =
        some ⟨ms, [], none⟩) ∧
    (getOrCreateScheduler ms (getOrCreateScheduler ms s).2).1 =
      (getOrCreateScheduler ms s).1 := by
  refine ⟨?_, ?_, ?_⟩
  · intro gid h
    simp [getOrCreateScheduler, h]
  · intro h
    simp [getOrCreateScheduler, h, lookK_setK_self]
  · cases h : lookK ms s.registry with
    | some gid => simp [getOrCreateScheduler, h]
    | none =>
        have h2 := lookK_getOrCreate ms s
        conv_lhs => rw [getOrCreateScheduler]
        rw [h2]

/-- C8: cancelling twice leaves exactly the state of cancelling once, and a
cancel with nothing registered changes nothing (and raises no error). -/
theorem cancel_idempotent (s : SysState) (hid : Nat) :
    handleCancel hid (handleCancel hid s) = handleCancel hid s ∧
    (∀ h, lookK hid s.handles = some h → h.tgt = none → handleCancel hid s = s) := by
  constructor
  · cases hh : lookK hid s.handles with
    | none => simp [handleCancel, hh]
    | some h =>
        obtain ⟨ph, tg⟩ := h
        cases ph with
        | idle => simp [handleCancel, hh]
        | dead => simp [handleCancel, hh]
        | active =>
            cases tg with
            | none => simp [handleCancel, hh]
            | some t =>
                have e1 : handleCancel hid s =
                    { groupAbort t.1 t.2 s with
                      handles := setK hid ⟨.active, none⟩ (groupAbort t.1 t.2 s).handles } := by
                  simp [handleCancel, hh]
                rw [e1]
                simp [handleCancel, lookK_setK_self]
  · intro h hh htgt
    obtain ⟨ph, tg⟩ := h
    simp only at htgt
    subst htgt
    cases ph <;> simp [handleCancel, hh]

/-- C7: before the mount effect runs, `schedule` and `cancel` are no-ops; the
effect cleanup cancels any active registration and marks the handle dead; and
on a dead handle every later `schedule`/`cancel` is a permanent no-op. -/
theorem handle_lifecycle (s : SysState) (hid u : Nat) (beh : List Prim)
    (a : DelayArg) (h : Handle) (hh : lookK hid s.handles = some h) :
    (h.phase = .idle → handleSchedule hid u beh a s = s ∧ handleCancel hid s = s) ∧
    (h.phase = .active →
      handleUnmount hid s =
        { handleCancel hid s with
          handles := setK hid ⟨.dead, none⟩ (handleCancel hid s).handles } ∧
      lookK hid (handleUnmount hid s).handles = some ⟨.dead, none⟩) ∧
    (∀ s2 : SysState, lookK hid s2.handles = some ⟨.dead, none⟩ →
      handleSchedule hid u beh a s2 = s2 ∧ handleCancel hid s2 = s2) := by
  refine ⟨?_, ?_, ?_⟩
  · intro hp
    exact ⟨by simp [handleSchedule, hh, hp], by simp [handleCancel, hh, hp]⟩
  · intro hp
    exact ⟨by simp [handleUnmount, hh, hp], by simp [handleUnmount, hh, hp, lookK_setK_self]⟩
  · intro s2 hdead
    exact ⟨by simp [handleSchedule, hdead], by simp [handleCancel, hdead]⟩

/-- C9: every `delayMs` argument (negative or non-numeric included) is
normalized by `Math.max(ms | 0, 0)` into a non-negative integer that is used
as the registry key — a schedule with any such argument still registers a
group under the normalized key instead of surfacing an error. -/
theorem delay_normalized (s : SysState) (hid u : Nat) (beh : List Prim)
    (a : DelayArg) (h : Handle) (hh : lookK hid s.handles = some h)
    (hp : h.phase = .active) :
    (lookK (normalizeDelay a) (handleSchedule hid u beh a s).registry).isSome = true ∧
    (∀ b : DelayArg, delayOr0 b < 0 → normalizeDelay b = 0) ∧
    normalizeDelay (.num (-100)) = 0 ∧
    normalizeDelay .nonNumeric = 0 ∧
    normalizeDelay (.num 250) = 250 := by
  refine ⟨?_, ?_, by decide, by decide, by decide⟩
  · have hreg := lookK_getOrCreate (normalizeDelay a) (handleCancel hid s)
    simp [handleSchedule, hh, hp, groupAdd_registry, hreg]
  · intro b hb
    have hm : max (delayOr0 b) 0 = 0 := max_eq_right hb.le
    simp [normalizeDelay, hm]

theorem inertOrFail_cases (s : SysState) (w : Nat) (hw : inertOrFailB s w = true) :
    ∃ c, lookK w s.closures = some c ∧ (c.beh = [] ∨ c.beh = [Prim.fail]) := by
  unfold inertOrFailB at hw
  cases hc : lookK w s.closures with
  | none => rw [hc] at hw; cases hw
  | some c =>
      rw [hc] at hw
      simp at hw
      exact ⟨c, rfl, hw⟩

theorem inertOrFail_of_inert (s : SysState) (w : Nat) (hw : inertB s w = true) :
    inertOrFailB s w = true := by
  unfold inertB at hw
  unfold inertOrFailB
  cases hc : lookK w s.closures with
  | none => rw [hc] at hw; cases hw
  | some c =>
      rw [hc] at hw
      simp at hw
      simp [hw]

theorem tickEvents_cons (s : SysState) (w : Nat) (l : List Nat) :
    tickEvents s (w :: l) = tickEvents s [w] ++ tickEvents s l := by
  simp [tickEvents]

theorem invokeOne_inertOrFail (w : Nat) (s : SysState)
    (hw : inertOrFailB s w = true) :
    invokeOne w s = { s with log := s.log ++ tickEvents s [w] } := by
  obtain ⟨c, hc, hbe⟩ := inertOrFail_cases s w hw
  rcases hbe with hbe | hbe <;>
    simp [invokeOne, tickEvents, hc, hbe, runPrims]

theorem tickLoop_run (gid : Nat) (g : TimerGroup) :
    ∀ (fuel i : Nat) (s : SysState),
      lookK gid s.groups = some g →
      (∀ w ∈ g.callbacks.drop i, inertOrFailB s w = true) →
      g.callbacks.length - i < fuel →
      ∃ t, (tickLoop gid fuel i s).log = s.log ++ tickEvents s (g.callbacks.drop i) ∧
        lookK gid (tickLoop gid fuel i s).groups = some ⟨g.delay, g.callbacks, some t⟩ ∧
        t ∈ (tickLoop gid fuel i s).pending ∧
        (tickLoop gid fuel i s).registry = s.registry ∧
        (tickLoop gid fuel i s).closures = s.closures := by
  intro fuel
  induction fuel with
  | zero => intro i s _ _ hfuel; omega
  | succ n ih =>
      intro i s hg hbeh hfuel
      by_cases hi : i < g.callbacks.length
      · have hwmem : g.callbacks.get ⟨i, hi⟩ ∈ g.callbacks.drop i := by
          rw [List.get_eq_getElem, List.drop_eq_getElem_cons hi]
          exact List.mem_cons_self _ _
        have hw : inertOrFailB s (g.callbacks.get ⟨i, hi⟩) = true := hbeh _ hwmem
        have hstep : tickLoop gid (n + 1) i s =
            tickLoop gid n (i + 1) (invokeOne (g.callbacks.get ⟨i, hi⟩) s) := by
          rw [tickLoop, hg]
          simp [hi]
        rw [hstep, invokeOne_inertOrFail _ _ hw]
        have hbeh1 : ∀ w2 ∈ g.callbacks.drop (i + 1),
            inertOrFailB { s with log := s.log ++ tickEvents s [g.callbacks.get ⟨i, hi⟩] } w2 = true := by
          intro w2 hm
          show inertOrFailB s w2 = true
          apply hbeh
          rw [List.drop_eq_getElem_cons hi]
          exact List.mem_cons_of_mem _ hm
        obtain ⟨t, h1, h2, h3, h4, h5⟩ :=
          ih (i + 1) { s with log := s.log ++ tickEvents s [g.callbacks.get ⟨i, hi⟩] }
            hg hbeh1 (by omega)
        refine ⟨t, ?_, h2, h3, by rw [h4], by rw [h5]⟩
        rw [h1]
        show s.log ++ tickEvents s [g.callbacks.get ⟨i, hi⟩] ++
            tickEvents s (g.callbacks.drop (i + 1)) =
          s.log ++ tickEvents s (g.callbacks.drop i)
        conv_rhs => rw [List.drop_eq_getElem_cons hi, tickEvents_cons]
        rw [List.append_assoc]
        simp [List.get_eq_getElem]
      · have hdrop : g.callbacks.drop i = [] := List.drop_eq_nil_of_le (by omega)
        have hstep : tickLoop gid (n + 1) i s = rearm gid s := by
          rw [tickLoop, hg]
          simp [hi]
        rw [hstep]
        refine ⟨s.nextId, ?_, ?_, ?_, ?_, ?_⟩ <;>
          simp [rearm, hg, hdrop, tickEvents, lookK_setK_self]

theorem invokedMembers_append (l1 l2 : List Event) :
    invokedMembers (l1 ++ l2) = invokedMembers l1 ++ invokedMembers l2 := by
  simp [invokedMembers]

theorem erroredMembers_append (l1 l2 : List Event) :
    erroredMembers (l1 ++ l2) = erroredMembers l1 ++ erroredMembers l2 := by
  simp [erroredMembers]

theorem invokedMembers_tickEvents (s : SysState) (l : List Nat)
    (h : ∀ w ∈ l, inertOrFailB s w = true) :
    invokedMembers (tickEvents s l) = l := by
  induction l with
  | nil => simp [tickEvents, invokedMembers]
  | cons x t ih =>
      obtain ⟨c, hc, hbe⟩ := inertOrFail_cases s x (h x (List.mem_cons_self x t))
      have ht := ih fun w hw => h w (List.mem_cons_of_mem _ hw)
      rw [tickEvents_cons, invokedMembers_append, ht]
      rcases hbe with hbe | hbe <;> simp [tickEvents, invokedMembers, hc, hbe]

theorem erroredMembers_tickEvents (s : SysState) (l : List Nat)
    (h : ∀ w ∈ l, inertOrFailB s w = true) :
    erroredMembers (tickEvents s l) = l.filter fun w => failsB s w := by
  induction l with
  | nil => simp [tickEvents, erroredMembers]
  | cons x t ih =>
      obtain ⟨c, hc, hbe⟩ := inertOrFail_cases s x (h x (List.mem_cons_self x t))
      have ht := ih fun w hw => h w (List.mem_cons_of_mem _ hw)
      rw [tickEvents_cons, erroredMembers_append, ht, List.filter_cons]
      rcases hbe with hbe | hbe <;>
        simp [tickEvents, erroredMembers, failsB, hc, hbe]

theorem lookK_mem {α : Type} (k : Nat) (v : α) :
    ∀ l : List (Nat × α), lookK k l = some v → (k, v) ∈ l := by
  intro l
  induction l with
  | nil => intro h; cases h
  | cons p t ih =>
      obtain ⟨k1, v1⟩ := p
      by_cases hk : k1 = k
      · subst hk
        intro h
        simp [lookK] at h
        subst h
        exact List.mem_cons_self _ _
      · intro h
        rw [lookK, if_neg hk] at h
        exact List.mem_cons_of_mem _ (ih h)

theorem groupAbort_closures (gid w : Nat) (s : SysState) :
    (groupAbort gid w s).closures = s.closures := by
  unfold groupAbort
  cases hl : lookK gid s.groups with
  | none => rfl
  | some g =>
      dsimp only
      split
      · split <;> rfl
      · rfl

theorem groupAbort_log (gid w : Nat) (s : SysState) :
    (groupAbort gid w s).log = s.log := by
  unfold groupAbort
  cases hl : lookK gid s.groups with
  | none => rfl
  | some g =>
      dsimp only
      split
      · split <;> rfl
      · rfl

theorem groupAbort_nextId (gid w : Nat) (s : SysState) :
    (groupAbort gid w s).nextId = s.nextId := by
  unfold groupAbort
  cases hl : lookK gid s.groups with
  | none => rfl
  | some g =>
      dsimp only
      split
      · split <;> rfl
      · rfl

theorem groupAbort_groups_ne (g2 gid w : Nat) (s : SysState) (h : g2 ≠ gid) :
    lookK gid (groupAbort g2 w s).groups = lookK gid s.groups := by
  unfold groupAbort
  cases hl : lookK g2 s.groups with
  | none => rfl
  | some g =>
      dsimp only
      split
      · split <;> · dsimp only; rw [lookK_setK_ne _ _ _ _ (Ne.symm h)]
      · rfl

theorem getOrCreate_closures (d : Nat) (s : SysState) :
    (getOrCreateScheduler d s).2.closures = s.closures := by
  unfold getOrCreateScheduler
  split <;> rfl

theorem getOrCreate_log (d : Nat) (s : SysState) :
    (getOrCreateScheduler d s).2.log = s.log := by
  unfold getOrCreateScheduler
  split <;> rfl

theorem getOrCreate_nextId_mono (d : Nat) (s : SysState) :
    s.nextId ≤ (getOrCreateScheduler d s).2.nextId := by
  unfold getOrCreateScheduler
  split
  · exact Nat.le_refl _
  · dsimp only
    omega

theorem getOrCreate_groups_lt (d gid : Nat) (s : SysState) (h : gid < s.nextId) :
    lookK gid (getOrCreateScheduler d s).2.groups = lookK gid s.groups := by
  unfold getOrCreateScheduler
  split
  · rfl
  · dsimp only
    rw [lookK_setK_ne _ _ _ _ (by omega : gid ≠ s.nextId)]

theorem getOrCreate_self_of (d gid : Nat) (s : SysState) (h : gid < s.nextId) :
    (getOrCreateScheduler d s).1 = gid → (getOrCreateScheduler d s).2 = s := by
  unfold getOrCreateScheduler
  split
  · intro _
    rfl
  · dsimp only
    intro hh
    omega

theorem groupAdd_closures (gid w : Nat) (s : SysState) :
    (groupAdd gid w s).closures = s.closures := by
  unfold groupAdd
  cases hl : lookK gid s.groups with
  | none => rfl
  | some g =>
      dsimp only
      split
      · rfl
      · split <;> rfl

theorem groupAdd_log (gid w : Nat) (s : SysState) :
    (groupAdd gid w s).log = s.log := by
  unfold groupAdd
  cases hl : lookK gid s.groups with
  | none => rfl
  | some g =>
      dsimp only
      split
      · rfl
      · split <;> rfl

theorem groupAdd_nextId_mono (gid w : Nat) (s : SysState) :
    s.nextId ≤ (groupAdd gid w s).nextId := by
  unfold groupAdd
  cases hl : lookK gid s.groups with
  | none => exact Nat.le_refl _
  | some g =>
      dsimp only
      split
      · exact Nat.le_refl _
      · split
        · dsimp only
          omega
        · exact Nat.le_refl _

theorem groupAdd_groups_ne (g2 gid w : Nat) (s : SysState) (h : g2 ≠ gid) :
    lookK gid (groupAdd g2 w s).groups = lookK gid s.groups := by
  unfold groupAdd
  cases hl : lookK g2 s.groups with
  | none => rfl
  | some g =>
      dsimp only
      split
      · rfl
      · split <;> · dsimp only; rw [lookK_setK_ne _ _ _ _ (Ne.symm h)]

theorem groupAdd_self_cases (gid w : Nat) (s : SysState) (gt : TimerGroup)
    (hg : lookK gid s.groups = some gt) :
    (w ∈ gt.callbacks ∧ groupAdd gid w s = s) ∨
    (w ∉ gt.callbacks ∧ ∃ tm,
      lookK gid (groupAdd gid w s).groups =
        some ⟨gt.delay, gt.callbacks ++ [w], tm⟩) := by
  by_cases hw : w ∈ gt.callbacks
  · left
    refine ⟨hw, ?_⟩
    unfold groupAdd
    rw [hg]
    simp [hw]
  · right
    refine ⟨hw, ?_⟩
    by_cases hl : (gt.callbacks ++ [w]).length = 1
    · refine ⟨some s.nextId, ?_⟩
      unfold groupAdd
      rw [hg]
      simp only [hw, if_false, ite_false]
      rw [if_pos hl]
      simp [lookK_setK_self]
    · refine ⟨gt.timeout, ?_⟩
      unfold groupAdd
      rw [hg]
      simp only [hw, if_false, ite_false]
      rw [if_neg hl]
      simp [lookK_setK_self]

theorem runPrims_noRemove (gid : Nat) (CL : List (Nat × Closure)) :
    ∀ (ps : List Prim) (st : SysState) (gt : TimerGroup),
      lookK gid st.groups = some gt →
      st.closures = CL →
      gid < st.nextId →
      noAbortOn gid ps = true →
      addsPresentL CL ps = true →
      gt.callbacks.Nodup →
      (∀ w ∈ gt.callbacks, (lookK w CL).isSome) →
      ∃ ext tm,
        lookK gid (runPrims ps st).1.groups =
          some ⟨gt.delay, gt.callbacks ++ ext, tm⟩ ∧
        (runPrims ps st).1.closures = CL ∧
        (runPrims ps st).1.log = st.log ∧
        st.nextId ≤ (runPrims ps st).1.nextId ∧
        (gt.callbacks ++ ext).Nodup ∧
        (∀ w ∈ gt.callbacks ++ ext, (lookK w CL).isSome) := by
  intro ps
  induction ps with
  | nil =>
      intro st gt hg hcl hlt _ _ hnd hmem
      refine ⟨[], gt.timeout, ?_, hcl, rfl, Nat.le_refl _, by simpa using hnd,
        by simpa using hmem⟩
      simpa [runPrims] using hg
  | cons p t ih =>
      intro st gt hg hcl hlt hno hadd hnd hmem
      cases p with
      | fail =>
          refine ⟨[], gt.timeout, ?_, hcl, rfl, Nat.le_refl _, by simpa using hnd,
            by simpa using hmem⟩
          simpa [runPrims] using hg
      | abort g2 w2 =>
          simp only [noAbortOn, Bool.and_eq_true, bne_iff_ne, ne_eq] at hno
          simp only [addsPresentL, Bool.and_eq_true, Bool.true_and] at hadd
          have hne : g2 ≠ gid := hno.1
          have hrun : runPrims (Prim.abort g2 w2 :: t) st =
              runPrims t (groupAbort g2 w2 st) := rfl
          have hg2 : lookK gid (groupAbort g2 w2 st).groups = some gt := by
            rw [groupAbort_groups_ne _ _ _ _ hne]
            exact hg
          have hcl2 : (groupAbort g2 w2 st).closures = CL := by
            rw [groupAbort_closures]
            exact hcl
          have hlt2 : gid < (groupAbort g2 w2 st).nextId := by
            rw [groupAbort_nextId]
            exact hlt
          obtain ⟨ext, tm, c1, c2, c3, c4, c5, c6⟩ :=
            ih (groupAbort g2 w2 st) gt hg2 hcl2 hlt2 hno.2 hadd hnd hmem
          rw [hrun]
          refine ⟨ext, tm, c1, c2, ?_, ?_, c5, c6⟩
          · rw [c3, groupAbort_log]
          · rw [← groupAbort_nextId g2 w2 st]
            exact c4
      | add d2 w2 =>
          simp only [noAbortOn, Bool.and_eq_true, Bool.true_and] at hno
          simp only [addsPresentL, Bool.and_eq_true] at hadd
          have hw2 : (lookK w2 CL).isSome := hadd.1
          have hrun : runPrims (Prim.add d2 w2 :: t) st =
              runPrims t (schedAdd d2 w2 st) := rfl
          rw [hrun]
          have hp2cl : (getOrCreateScheduler d2 st).2.closures = CL := by
            rw [getOrCreate_closures]
            exact hcl
          have hp2lt : gid < (getOrCreateScheduler d2 st).2.nextId :=
            lt_of_lt_of_le hlt (getOrCreate_nextId_mono d2 st)
          have hp2g : lookK gid (getOrCreateScheduler d2 st).2.groups =
              some gt := by
            rw [getOrCreate_groups_lt _ _ _ hlt]
            exact hg
          by_cases hpg : (getOrCreateScheduler d2 st).1 = gid
          · -- the add targets this very group
            have hst2 : (getOrCreateScheduler d2 st).2 = st :=
              getOrCreate_self_of d2 gid st hlt hpg
            have hsched : schedAdd d2 w2 st = groupAdd gid w2 st := by
              dsimp only [schedAdd]
              rw [hpg, hst2]
            rw [hsched]
            rcases groupAdd_self_cases gid w2 st gt hg with ⟨hwin, heq⟩ | ⟨hwout, tm2, hg3⟩
            · rw [heq]
              exact ih st gt hg hcl hlt hno hadd.2 hnd hmem
            · have hcl3 : (groupAdd gid w2 st).closures = CL := by
                rw [groupAdd_closures]
                exact hcl
              have hlt3 : gid < (groupAdd gid w2 st).nextId :=
                lt_of_lt_of_le hlt (groupAdd_nextId_mono gid w2 st)
              have hnd3 : (gt.callbacks ++ [w2]).Nodup := by
                simp [List.nodup_append, hnd, hwout]
              have hmem3 : ∀ w ∈ gt.callbacks ++ [w2], (lookK w CL).isSome := by
                intro w hw
                rcases List.mem_append.mp hw with hw | hw
                · exact hmem w hw
                · rw [List.mem_singleton.mp hw]
                  exact hw2
              obtain ⟨ext, tm, c1, c2, c3, c4, c5, c6⟩ :=
                ih (groupAdd gid w2 st) ⟨gt.delay, gt.callbacks ++ [w2], tm2⟩
                  hg3 hcl3 hlt3 hno hadd.2 hnd3 hmem3
              refine ⟨[w2] ++ ext, tm, ?_, c2, ?_, ?_, ?_, ?_⟩
              · rw [c1]
                simp
              · rw [c3, groupAdd_log]
              · exact le_trans (groupAdd_nextId_mono gid w2 st) c4
              · simpa using c5
              · intro w hw
                apply c6
                simpa using hw
          · -- the add targets a different group
            have hsg : lookK gid (schedAdd d2 w2 st).groups = some gt := by
              dsimp only [schedAdd]
              rw [groupAdd_groups_ne _ _ _ _ hpg]
              exact hp2g
            have hscl : (schedAdd d2 w2 st).closures = CL := by
              dsimp only [schedAdd]
              rw [groupAdd_closures]
              exact hp2cl
            have hslt : gid < (schedAdd d2 w2 st).nextId := by
              dsimp only [schedAdd]
              exact lt_of_lt_of_le hp2lt (groupAdd_nextId_mono _ _ _)
            obtain ⟨ext, tm, c1, c2, c3, c4, c5, c6⟩ :=
              ih (schedAdd d2 w2 st) gt hsg hscl hslt hno hadd.2 hnd hmem
            refine ⟨ext, tm, c1, c2, ?_, ?_, c5, c6⟩
            · rw [c3]
              dsimp only [schedAdd]
              rw [groupAdd_log, getOrCreate_log]
            · refine le_trans ?_ c4
              dsimp only [schedAdd]
              exact le_trans (getOrCreate_nextId_mono d2 st) (groupAdd_nextId_mono _ _ _)

theorem invokeOne_noRemove (gid : Nat) (CL : List (Nat × Closure))
    (hsafe : ∀ wc ∈ CL, noAbortOn gid wc.2.beh = true ∧
      addsPresentL CL wc.2.beh = true)
    (st : SysState) (gt : TimerGroup) (w : Nat)
    (hg : lookK gid st.groups = some gt)
    (hcl : st.closures = CL)
    (hlt : gid < st.nextId)
    (hnd : gt.callbacks.Nodup)
    (hmem : ∀ w2 ∈ gt.callbacks, (lookK w2 CL).isSome)
    (hw : (lookK w CL).isSome) :
    ∃ ext tm,
      lookK gid (invokeOne w st).groups = some ⟨gt.delay, gt.callbacks ++ ext, tm⟩ ∧
      (invokeOne w st).closures = CL ∧
      invokedMembers (invokeOne w st).log = invokedMembers st.log ++ [w] ∧
      st.nextId ≤ (invokeOne w st).nextId ∧
      (gt.callbacks ++ ext).Nodup ∧
      (∀ w2 ∈ gt.callbacks ++ ext, (lookK w2 CL).isSome) := by
  obtain ⟨c, hc⟩ := Option.isSome_iff_exists.mp hw
  have hcs : lookK w st.closures = some c := by rw [hcl]; exact hc
  have hsc := hsafe (w, c) (lookK_mem w c CL hc)
  have hg1 : lookK gid (SysState.mk st.registry st.groups st.closures st.pending
      st.handles st.nextId (st.log ++ [Event.invoke w c.u])).groups = some gt := hg
  have hcl1 : (SysState.mk st.registry st.groups st.closures st.pending
      st.handles st.nextId (st.log ++ [Event.invoke w c.u])).closures = CL := hcl
  obtain ⟨ext, tm, c1, c2, c3, c4, c5, c6⟩ :=
    runPrims_noRemove gid CL c.beh
      (SysState.mk st.registry st.groups st.closures st.pending st.handles
        st.nextId (st.log ++ [Event.invoke w c.u]))
      gt hg1 hcl1 hlt hsc.1 hsc.2 hnd hmem
  unfold invokeOne
  rw [hcs]
  dsimp only
  split
  · refine ⟨ext, tm, c1, c2, ?_, c4, c5, c6⟩
    rw [invokedMembers_append, c3, invokedMembers_append]
    simp [invokedMembers]
  · refine ⟨ext, tm, c1, c2, ?_, c4, c5, c6⟩
    rw [c3, invokedMembers_append]
    simp [invokedMembers]

theorem drop_append_step {cb rest : List Nat} {i : Nat} (hi : i < cb.length) :
    (cb ++ rest).drop i = cb.get ⟨i, hi⟩ :: (cb ++ rest).drop (i + 1) := by
  have hlen : i < (cb ++ rest).length := by
    rw [List.length_append]
    omega
  rw [List.drop_eq_getElem_cons hlen]
  congr 1
  rw [List.getElem_append_left hi, List.get_eq_getElem]

theorem tickLoop_noRemove (gid : Nat) (CL : List (Nat × Closure))
    (hsafe : ∀ wc ∈ CL, noAbortOn gid wc.2.beh = true ∧
      addsPresentL CL wc.2.beh = true) :
    ∀ (fuel i : Nat) (st : SysState) (gt : TimerGroup),
      lookK gid st.groups = some gt →
      st.closures = CL →
      gid < st.nextId →
      gt.callbacks.Nodup →
      (∀ w ∈ gt.callbacks, (lookK w CL).isSome) →
      CL.length - i < fuel →
      ∃ ext t,
        lookK gid (tickLoop gid fuel i st).groups =
          some ⟨gt.delay, gt.callbacks ++ ext, some t⟩ ∧
        t ∈ (tickLoop gid fuel i st).pending ∧
        invokedMembers (tickLoop gid fuel i st).log =
          invokedMembers st.log ++ (gt.callbacks ++ ext).drop i ∧
        (∀ w ∈ ext, w ∉ gt.callbacks) ∧
        (gt.callbacks ++ ext).Nodup := by
  intro fuel
  induction fuel with
  | zero => intro i st gt _ _ _ _ _ hfuel; omega
  | succ n ih =>
      intro i st gt hg hcl hlt hnd hmem hfuel
      by_cases hi : i < gt.callbacks.length
      · have hbound : gt.callbacks.length ≤ CL.length := by
          have hsub : gt.callbacks ⊆ CL.map Prod.fst := by
            intro w hwmem
            obtain ⟨c, hc⟩ := Option.isSome_iff_exists.mp (hmem w hwmem)
            exact List.mem_map.mpr ⟨(w, c), lookK_mem w c CL hc, rfl⟩
          simpa using (hnd.subperm hsub).length_le
        have hwmem : gt.callbacks.get ⟨i, hi⟩ ∈ gt.callbacks :=
          List.get_mem _ _ hi
        have hwcl : (lookK (gt.callbacks.get ⟨i, hi⟩) CL).isSome :=
          hmem _ hwmem
        have hstep : tickLoop gid (n + 1) i st =
            tickLoop gid n (i + 1) (invokeOne (gt.callbacks.get ⟨i, hi⟩) st) := by
          rw [tickLoop, hg]
          simp [hi]
        obtain ⟨δ, tm, d1, d2, d3, d4, d5, d6⟩ :=
          invokeOne_noRemove gid CL hsafe st gt (gt.callbacks.get ⟨i, hi⟩)
            hg hcl hlt hnd hmem hwcl
        obtain ⟨ext2, t, e1, e2, e3, e4, e5⟩ :=
          ih (i + 1) (invokeOne (gt.callbacks.get ⟨i, hi⟩) st)
            ⟨gt.delay, gt.callbacks ++ δ, tm⟩ d1 d2 (lt_of_lt_of_le hlt d4) d5 d6
            (by omega)
        rw [hstep]
        refine ⟨δ ++ ext2, t, ?_, e2, ?_, ?_, ?_⟩
        · rw [e1]
          simp
        · rw [e3, d3]
          dsimp only
          rw [drop_append_step hi, List.append_assoc gt.callbacks δ ext2]
          simp
        · intro w hw
          rcases List.mem_append.mp hw with hw | hw
          · intro hin
            exact (List.disjoint_of_nodup_append d5) hin hw
          · intro hin
            exact e4 w hw (List.mem_append_left _ hin)
        · simpa using e5
      · have hdrop : (gt.callbacks ++ ([] : List Nat)).drop i = [] := by
          rw [List.append_nil]
          exact List.drop_eq_nil_of_le (by omega)
        have hstep : tickLoop gid (n + 1) i st = rearm gid st := by
          rw [tickLoop, hg]
          simp [hi]
        rw [hstep]
        refine ⟨[], st.nextId, ?_, ?_, ?_, ?_, ?_⟩
        · simp [rearm, hg, lookK_setK_self]
        · simp [rearm, hg]
        · rw [hdrop]
          simp [rearm, hg]
        · intro w hw
          cases hw
        · simpa using hnd

/-- C2 (amended): on every tick during which no callback is removed from the
group (no body performs an abort on this group — bodies may throw, may operate
on other groups, and may add further callbacks to this group), the dispatch
invokes the group's registered callbacks one after another in exactly the
order of the `callbacks` array, followed by the callbacks appended during the
tick in their append order; and a (non-duplicate) add appends at the tail, so
the array is always in insertion order and the same order repeats every such
tick.  (Unconditionally the claim fails: a removal during a tick can skip a
still-registered callback, see the counterexample.) -/
theorem tick_invokes_in_insertion_order :
    (∀ (s : SysState) (gid fuel : Nat) (g : TimerGroup),
      lookK gid s.groups = some g →
      gid < s.nextId →
      g.callbacks.Nodup →
      (∀ w ∈ g.callbacks, (lookK w s.closures).isSome) →
      (∀ wc ∈ s.closures, noAbortOn gid wc.2.beh = true ∧
        addsPresentL s.closures wc.2.beh = true) →
      s.closures.length < fuel →
      ∃ ext t,
        lookK gid (tickLoop gid fuel 0 s).groups =
          some ⟨g.delay, g.callbacks ++ ext, some t⟩ ∧
        invokedMembers (tickLoop gid fuel 0 s).log =
          invokedMembers s.log ++ (g.callbacks ++ ext)) ∧
    (∀ (s : SysState) (gid w : Nat) (g : TimerGroup),
      lookK gid s.groups = some g → w ∉ g.callbacks →
      ∃ t, lookK gid (groupAdd gid w s).groups =
        some ⟨g.delay, g.callbacks ++ [w], t⟩) := by
  constructor
  · intro s gid fuel g hg hlt hnd hmem hsafe hfuel
    obtain ⟨ext, t, r1, _, r3, _, _⟩ :=
      tickLoop_noRemove gid s.closures hsafe fuel 0 s g hg rfl hlt hnd hmem
        (by omega)
    exact ⟨ext, t, r1, by simpa using r3⟩
  · intro s gid w g hg hw
    by_cases hl : (g.callbacks ++ [w]).length = 1
    · refine ⟨some s.nextId, ?_⟩
      unfold groupAdd
      rw [hg]
      simp only [hw, if_false, ite_false]
      rw [if_pos hl]
      simp [lookK_setK_self]
    · refine ⟨g.timeout, ?_⟩
      unfold groupAdd
      rw [hg]
      simp only [hw, if_false, ite_false]
      rw [if_neg hl]
      simp [lookK_setK_self]

/-- C6: when some callbacks of a tick throw (`[fail]` bodies) and the others
are inert, the tick still invokes every member of the group in order, a
deferred rethrow task is recorded for exactly the throwing ones, and the
timer is re-armed for the next tick. -/
theorem tick_error_isolated (s : SysState) (gid fuel : Nat) (g : TimerGroup)
    (hg : lookK gid s.groups = some g)
    (hbeh : ∀ w ∈ g.callbacks, inertOrFailB s w = true)
    (hfuel : g.callbacks.length < fuel) :
    invokedMembers (tickLoop gid fuel 0 s).log =
      invokedMembers s.log ++ g.callbacks ∧
    erroredMembers (tickLoop gid fuel 0 s).log =
      erroredMembers s.log ++ (g.callbacks.filter fun w => failsB s w) ∧
    ∃ t, lookK gid (tickLoop gid fuel 0 s).groups =
        some ⟨g.delay, g.callbacks, some t⟩ ∧
      t ∈ (tickLoop gid fuel 0 s).pending := by
  have hbeh2 : ∀ w ∈ g.callbacks.drop 0, inertOrFailB s w = true := by
    simpa using hbeh
  obtain ⟨t, h1, h2, h3, _, _⟩ := tickLoop_run gid g fuel 0 s hg hbeh2 (by omega)
  refine ⟨?_, ?_, t, h2, h3⟩
  · rw [h1, invokedMembers_append, invokedMembers_tickEvents s _ (by simpa using hbeh2)]
    simp
  · rw [h1, erroredMembers_append, erroredMembers_tickEvents s _ (by simpa using hbeh2)]
    simp

/-- C3 (divergence witness): in `sC3` the tick's only callback removes itself,
which empties `callbacks`, evicts the group from the registry and calls
`clearTimeout` on the already-fired handle — yet `invokeCallbacks`
unconditionally re-arms after its loop, so the evicted, empty group instance
keeps a pending timer and its next tick still fires (re-arming yet again),
violating both "no further tick for that instance" and "timer present iff
`callbacks` non-empty". -/
theorem emptied_group_timer_rearmed :
    (lookK 0 (fireGroupTimer 0 5 sC3).groups).map TimerGroup.callbacks = some [] ∧
    lookK 5 (fireGroupTimer 0 5 sC3).registry = none ∧
    (fireGroupTimer 0 5 sC3).pending = [3] ∧
    ((lookK 0 (fireGroupTimer 0 5 sC3).groups).bind TimerGroup.timeout = some 3) ∧
    (fireGroupTimer 0 5 (fireGroupTimer 0 5 sC3)).pending = [4] := by
  decide

/-- C4 (divergence witness): in `sC4` callback 1 removes itself during the
tick; the `for...of` loop iterates the spliced live array, so callback 2 —
registered for the entire tick — is skipped in that tick (it is invoked again
only on the next tick). -/
theorem removal_skips_whole_tick_sibling :
    invokedMembers (fireGroupTimer 0 5 sC4).log = [1] ∧
    (lookK 0 (fireGroupTimer 0 5 sC4).groups).map TimerGroup.callbacks = some [2] ∧
    invokedMembers (fireGroupTimer 0 5 (fireGroupTimer 0 5 sC4)).log = [1, 2] := by
  decide

/-- C5 counterexample: in `sC5` the group's array is `[1]` when the tick
starts; callback 1 adds closure 2 during the dispatch, and closure 2 is
invoked in that very tick — refuting "the newly added callback is not invoked
during that same tick". -/
theorem added_callback_same_tick_cex :
    (lookK 0 sC5.groups).map TimerGroup.callbacks = some [1] ∧
    invokedMembers (fireGroupTimer 0 6 sC5).log = [1, 2] := by
  decide

/-- C5 (amended): a callback added to a group during that group's tick
dispatch is appended to the live `callbacks` array and *can* run in that very
tick — the dispatch is not snapshot-based.  In particular, on every tick
during which no callback is removed from the group, every callback appended
during the dispatch (`ext`, disjoint from the members at tick start) is
invoked before that tick ends: its first invocation is not deferred to the
next tick.  (Only a removal later in the same tick can shift an appended
callback back behind the iteration index and out of that tick, see
`added_callback_shifted_out`.) -/
theorem added_callback_runs_same_tick (s : SysState) (gid fuel : Nat)
    (g : TimerGroup)
    (hg : lookK gid s.groups = some g)
    (hlt : gid < s.nextId)
    (hnd : g.callbacks.Nodup)
    (hmem : ∀ w ∈ g.callbacks, (lookK w s.closures).isSome)
    (hsafe : ∀ wc ∈ s.closures, noAbortOn gid wc.2.beh = true ∧
      addsPresentL s.closures wc.2.beh = true)
    (hfuel : s.closures.length < fuel) :
    ∃ ext t,
      lookK gid (tickLoop gid fuel 0 s).groups =
        some ⟨g.delay, g.callbacks ++ ext, some t⟩ ∧
      (∀ w ∈ ext, w ∉ g.callbacks) ∧
      invokedMembers (tickLoop gid fuel 0 s).log =
        invokedMembers s.log ++ g.callbacks ++ ext := by
  obtain ⟨ext, t, r1, _, r3, r4, _⟩ :=
    tickLoop_noRemove gid s.closures hsafe fuel 0 s g hg rfl hlt hnd hmem
      (by omega)
  exact ⟨ext, t, r1, r4, by simpa [List.append_assoc] using r3⟩

theorem invokedUnderlying_append (l1 l2 : List Event) :
    invokedUnderlying (l1 ++ l2) = invokedUnderlying l1 ++ invokedUnderlying l2 := by
  simp [invokedUnderlying]

/-- C10: two distinct mounted handles that schedule the *same* user callback
`u` with the same behaviour and delay end up with two distinct wrapper
closures in the shared group (each `doSchedule` wraps its callback in a fresh
zero-argument closure), so the group holds both entries, an inert `u` is
invoked twice per tick, and cancelling one handle leaves the other handle's
registration in place — the duplicate check never merges them. -/
theorem distinct_handles_never_merge (s : SysState) (h1 h2 u : Nat)
    (beh : List Prim) (a : DelayArg)
    (hne : h1 ≠ h2)
    (hh1 : lookK h1 s.handles = some ⟨.active, none⟩)
    (hh2 : lookK h2 s.handles = some ⟨.active, none⟩)
    (hreg : lookK (normalizeDelay a) s.registry = none) :
    ∃ gid w2 w1,
      w1 ≠ w2 ∧
      lookK h2 (twoSched h1 h2 u beh a s).handles =
        some ⟨.active, some (gid, w2)⟩ ∧
      lookK h1 (twoSched h1 h2 u beh a s).handles =
        some ⟨.active, some (gid, w1)⟩ ∧
      (lookK gid (twoSched h1 h2 u beh a s).groups).map TimerGroup.callbacks =
        some [w2, w1] ∧
      lookK w2 (twoSched h1 h2 u beh a s).closures = some ⟨u, beh⟩ ∧
      lookK w1 (twoSched h1 h2 u beh a s).closures = some ⟨u, beh⟩ ∧
      (lookK gid (handleCancel h1 (twoSched h1 h2 u beh a s)).groups).map
        TimerGroup.callbacks = some [w2] ∧
      (beh = [] →
        invokedUnderlying (tickLoop gid 4 0 (twoSched h1 h2 u beh a s)).log =
          invokedUnderlying (twoSched h1 h2 u beh a s).log ++ [u, u]) := by
  have hne12 : s.nextId + 1 + 1 + 1 ≠ s.nextId + 1 := by omega
  have hne21 : s.nextId + 1 ≠ s.nextId + 1 + 1 + 1 := by omega
  have e1 : handleSchedule h2 u beh a s =
      { registry := setK (normalizeDelay a) s.nextId s.registry,
        groups := setK s.nextId
            ⟨normalizeDelay a, [s.nextId + 1], some (s.nextId + 1 + 1)⟩
          (setK s.nextId ⟨normalizeDelay a, [], none⟩ s.groups),
        closures := setK (s.nextId + 1) ⟨u, beh⟩ s.closures,
        pending := (s.nextId + 1 + 1) :: s.pending,
        handles := setK h2 ⟨.active, some (s.nextId, s.nextId + 1)⟩ s.handles,
        nextId := s.nextId + 1 + 1 + 1,
        log := s.log } := by
    simp [handleSchedule, handleCancel, hh2, getOrCreateScheduler, hreg,
      groupAdd, lookK_setK_self]
  have hl1 : lookK h1 (setK h2 (⟨.active, some (s.nextId, s.nextId + 1)⟩ : Handle)
      s.handles) = lookK h1 s.handles := lookK_setK_ne _ _ _ _ hne
  have e2 : twoSched h1 h2 u beh a s =
      { registry := setK (normalizeDelay a) s.nextId s.registry,
        groups := setK s.nextId
            ⟨normalizeDelay a, [s.nextId + 1, s.nextId + 1 + 1 + 1],
              some (s.nextId + 1 + 1)⟩
          (setK s.nextId ⟨normalizeDelay a, [s.nextId + 1], some (s.nextId + 1 + 1)⟩
            (setK s.nextId ⟨normalizeDelay a, [], none⟩ s.groups)),
        closures := setK (s.nextId + 1 + 1 + 1) ⟨u, beh⟩
          (setK (s.nextId + 1) ⟨u, beh⟩ s.closures),
        pending := (s.nextId + 1 + 1) :: s.pending,
        handles := setK h1 ⟨.active, some (s.nextId, s.nextId + 1 + 1 + 1)⟩
          (setK h2 ⟨.active, some (s.nextId, s.nextId + 1)⟩ s.handles),
        nextId := s.nextId + 1 + 1 + 1 + 1,
        log := s.log } := by
    rw [twoSched, e1]
    simp [handleSchedule, handleCancel, hl1, hh1, getOrCreateScheduler,
      lookK_setK_self, groupAdd, hne12]
  refine ⟨s.nextId, s.nextId + 1, s.nextId + 1 + 1 + 1, by omega,
    ?_, ?_, ?_, ?_, ?_, ?_, ?_⟩
  · rw [e2]
    simp only [lookK_setK_ne _ _ _ _ (Ne.symm hne), lookK_setK_self]
  · rw [e2]
    simp only [lookK_setK_self]
  · rw [e2]
    simp [lookK_setK_self]
  · rw [e2]
    simp only [lookK_setK_ne _ _ _ _ hne21, lookK_setK_self]
  · rw [e2]
    simp only [lookK_setK_self]
  · rw [e2]
    simp [handleCancel, lookK_setK_self, groupAbort, List.erase_cons, hne21,
      hne12]
  · intro hb
    subst hb
    have hg2 : lookK s.nextId (twoSched h1 h2 u ([] : List Prim) a s).groups =
        some ⟨normalizeDelay a, [s.nextId + 1, s.nextId + 1 + 1 + 1],
          some (s.nextId + 1 + 1)⟩ := by
      rw [e2]
      simp [lookK_setK_self]
    have hcl2 : lookK (s.nextId + 1)
        (twoSched h1 h2 u ([] : List Prim) a s).closures =
        some ⟨u, ([] : List Prim)⟩ := by
      rw [e2]
      simp only [lookK_setK_ne _ _ _ _ hne21, lookK_setK_self]
    have hcl1 : lookK (s.nextId + 1 + 1 + 1)
        (twoSched h1 h2 u ([] : List Prim) a s).closures =
        some ⟨u, ([] : List Prim)⟩ := by
      rw [e2]
      simp only [lookK_setK_self]
    have hbeh2 : ∀ w ∈ (⟨normalizeDelay a,
        [s.nextId + 1, s.nextId + 1 + 1 + 1], some (s.nextId + 1 + 1)⟩ :
          TimerGroup).callbacks.drop 0,
        inertOrFailB (twoSched h1 h2 u ([] : List Prim) a s) w = true := by
      intro w hw
      simp at hw
      unfold inertOrFailB
      rcases hw with hw | hw <;> subst hw
      · rw [hcl2]; rfl
      · rw [hcl1]; rfl
    obtain ⟨t, hlog, _, _, _, _⟩ :=
      tickLoop_run s.nextId _ 4 0 (twoSched h1 h2 u ([] : List Prim) a s)
        hg2 hbeh2 (by simp)
    rw [hlog, invokedUnderlying_append]
    have hev : tickEvents (twoSched h1 h2 u ([] : List Prim) a s)
        ((⟨normalizeDelay a, [s.nextId + 1, s.nextId + 1 + 1 + 1],
          some (s.nextId + 1 + 1)⟩ : TimerGroup).callbacks.drop 0) =
        [Event.invoke (s.nextId + 1) u, Event.invoke (s.nextId + 1 + 1 + 1) u] := by
      simp [tickEvents, hcl2, hcl1]
    rw [hev]
    simp [invokedUnderlying]

/-- Witness for C1 at delay 7 on the empty state. -/
theorem getOrCreateScheduler_shares_one_group_witness :
    lookK 7 (getOrCreateScheduler 7 initState).2.registry =
      some (getOrCreateScheduler 7 initState).1 ∧
    lookK (getOrCreateScheduler 7 initState).1
      (getOrCreateScheduler 7 initState).2.groups = some ⟨7, [], none⟩ ∧
    (getOrCreateScheduler 7 (getOrCreateScheduler 7 initState).2).1 =
      (getOrCreateScheduler 7 initState).1 :=
  ⟨((getOrCreateScheduler_shares_one_group 7 initState).2.1 (by decide)).1,
   ((getOrCreateScheduler_shares_one_group 7 initState).2.1 (by decide)).2,
   (getOrCreateScheduler_shares_one_group 7 initState).2.2⟩

/-- Witness for C2 on a two-member inert group, plus a concrete append. -/
theorem tick_invokes_in_insertion_order_witness :
    (∃ ext t,
      lookK 0 (tickLoop 0 3 0 sTwoInert).groups =
        some ⟨5, [1, 2] ++ ext, some t⟩ ∧
      invokedMembers (tickLoop 0 3 0 sTwoInert).log =
        invokedMembers sTwoInert.log ++ ([1, 2] ++ ext)) ∧
    (∃ t, lookK 0 (groupAdd 0 9 sTwoInert).groups =
      some ⟨5, [1, 2] ++ [9], t⟩) :=
  ⟨tick_invokes_in_insertion_order.1 sTwoInert 0 3 ⟨5, [1, 2], some 3⟩
      (by decide) (by decide) (by decide) (by decide) (by decide) (by decide),
   tick_invokes_in_insertion_order.2 sTwoInert 0 9 ⟨5, [1, 2], some 3⟩
      (by decide) (by decide)⟩

/-- Witness for the amended C5 on `sC5`, whose only registered callback adds
closure 2 mid-tick. -/
theorem added_callback_runs_same_tick_witness :
    ∃ ext t,
      lookK 0 (tickLoop 0 3 0 sC5).groups = some ⟨5, [1] ++ ext, some t⟩ ∧
      (∀ w ∈ ext, w ∉ [1]) ∧
      invokedMembers (tickLoop 0 3 0 sC5).log =
        invokedMembers sC5.log ++ [1] ++ ext :=
  added_callback_runs_same_tick sC5 0 3 ⟨5, [1], some 3⟩ (by decide)
    (by decide) (by decide) (by decide) (by decide) (by decide)

/-- Witness for C6 on a group whose first member throws. -/
theorem tick_error_isolated_witness :
    invokedMembers (tickLoop 0 3 0 sFailMix).log =
      invokedMembers sFailMix.log ++ [1, 2] ∧
    erroredMembers (tickLoop 0 3 0 sFailMix).log =
      erroredMembers sFailMix.log ++ ([1, 2].filter fun w => failsB sFailMix w) ∧
    ∃ t, lookK 0 (tickLoop 0 3 0 sFailMix).groups = some ⟨5, [1, 2], some t⟩ ∧
      t ∈ (tickLoop 0 3 0 sFailMix).pending :=
  tick_error_isolated sFailMix 0 3 ⟨5, [1, 2], some 3⟩ (by decide) (by decide)
    (by decide)

/-- Witness for C7 on an unmounted handle (0) and a mounted handle (1). -/
theorem handle_lifecycle_witness :
    (handleSchedule 0 9 [] (.num 5) sHandles = sHandles ∧
      handleCancel 0 sHandles = sHandles) ∧
    lookK 1 (handleUnmount 1 sHandles).handles = some ⟨.dead, none⟩ ∧
    handleSchedule 1 9 [] (.num 5) (handleUnmount 1 sHandles) =
      handleUnmount 1 sHandles :=
  ⟨(handle_lifecycle sHandles 0 9 [] (.num 5) ⟨.idle, none⟩ (by decide)).1 rfl,
   ((handle_lifecycle sHandles 1 9 [] (.num 5) ⟨.active, none⟩ (by decide)).2.1 rfl).2,
   ((handle_lifecycle sHandles 1 9 [] (.num 5) ⟨.active, none⟩ (by decide)).2.2
      (handleUnmount 1 sHandles) (by decide)).1⟩

/-- Witness for C8 on a mounted handle with nothing scheduled. -/
theorem cancel_idempotent_witness :
    handleCancel 1 (handleCancel 1 sHandles) = handleCancel 1 sHandles ∧
    handleCancel 1 sHandles = sHandles :=
  ⟨(cancel_idempotent sHandles 1).1,
   (cancel_idempotent sHandles 1).2 ⟨.active, none⟩ (by decide) rfl⟩

/-- Witness for C9 with a negative delay argument. -/
theorem delay_normalized_witness :
    (lookK (normalizeDelay (.num (-7)))
      (handleSchedule 1 9 [] (.num (-7)) sHandles).registry).isSome = true ∧
    normalizeDelay (.num (-100)) = 0 :=
  ⟨(delay_normalized sHandles 1 9 [] (.num (-7)) ⟨.active, none⟩ (by decide) rfl).1,
   (delay_normalized sHandles 1 9 [] (.num (-7)) ⟨.active, none⟩ (by decide) rfl).2.2.1⟩

/-- Witness for C10 on two mounted handles scheduling the same callback. -/
theorem distinct_handles_never_merge_witness :
    ∃ gid w2 w1,
      w1 ≠ w2 ∧
      lookK 1 (twoSched 0 1 9 [] (.num 5) sTwoHandles).handles =
        some ⟨.active, some (gid, w2)⟩ ∧
      lookK 0 (twoSched 0 1 9 [] (.num 5) sTwoHandles).handles =
        some ⟨.active, some (gid, w1)⟩ ∧
      (lookK gid (twoSched 0 1 9 [] (.num 5) sTwoHandles).groups).map
        TimerGroup.callbacks = some [w2, w1] ∧
      lookK w2 (twoSched 0 1 9 [] (.num 5) sTwoHandles).closures = some ⟨9, []⟩ ∧
      lookK w1 (twoSched 0 1 9 [] (.num 5) sTwoHandles).closures = some ⟨9, []⟩ ∧
      (lookK gid (handleCancel 0 (twoSched 0 1 9 [] (.num 5) sTwoHandles)).groups).map
        TimerGroup.callbacks = some [w2] ∧
      (([] : List Prim) = [] →
        invokedUnderlying (tickLoop gid 4 0 (twoSched 0 1 9 [] (.num 5) sTwoHandles)).log =
          invokedUnderlying (twoSched 0 1 9 [] (.num 5) sTwoHandles).log ++ [9, 9]) :=
  distinct_handles_never_merge sTwoHandles 0 1 9 [] (.num 5) (by decide)
    (by decide) (by decide) rfl

/-- C2 counterexample: in `sC4` member 2 is registered at the group's delay
and is never removed, yet the tick in which member 1 cancels itself invokes
only member 1 — so a tick can fail to invoke a registered, not-removed
callback, refuting the unconditional per-tick invocation claim. -/
theorem insertion_order_not_invoked_cex :
    invokedMembers (fireGroupTimer 0 5 sC4).log = [1] ∧
    (lookK 0 sC4.groups).map TimerGroup.callbacks = some [1, 2] ∧
    (lookK 0 (fireGroupTimer 0 5 sC4).groups).map TimerGroup.callbacks =
      some [2] := by
  decide

/-- Boundary of the C5 amendment: a callback added during a tick is *not*
guaranteed to run in that tick when removals follow.  In `sC5b` closure 1
appends closure 4 mid-tick, then closure 2 removes itself and closure 3; the
two splices shift closure 4 behind the iteration index, so the tick invokes
only [1, 2] while closure 4 stays registered for the next tick. -/
theorem added_callback_shifted_out :
    invokedMembers (fireGroupTimer 0 9 sC5b).log = [1, 2] ∧
    (lookK 0 (fireGroupTimer 0 9 sC5b).groups).map TimerGroup.callbacks =
      some [1, 4] := by
  decide
